import Mathlib

/-
Shallow embedding of the `ordinary-arg-parser` repository (src/src/errors.ts,
the variant that stores positionals in a single `_` array).  JavaScript
runtime values that can be stored in the parse result are modelled by
`Value`; machine strings are Lean `String`s manipulated through their
character lists so that everything reduces in the kernel.
-/

namespace OrdArg

/-- JavaScript values that the parser can store in its result object:
strings, booleans, `null`, and arrays (from `accumulate` handling or
transforms). -/
inductive Value where
  | str (s : String)
  | bool (b : Bool)
  | null
  | list (vs : List Value)

/-- JavaScript truthiness restricted to the values above: `""`, `false`
and `null` are falsy; any array (even empty) and any non-empty string are
truthy. -/
def Value.truthy : Value → Bool
  | .str s => s != ""
  | .bool b => b
  | .null => false
  | .list _ => true

/-- The `kind` field of an option configuration. -/
inductive Kind where
  | flag
  | value
deriving DecidableEq

/-- The `DuplicateHandling` union type. -/
inductive DuplicateHandling where
  | accumulate
  | lastWins
  | firstWins
deriving DecidableEq

/-- Source type `OptionConfig`: one entry of the options configuration.  `none` models
the absence (`undefined`) of an optional field.  `aliasName` is the `alias`
field of the source (that spelling is a reserved word here). -/
structure OptionConfig where
  name : String
  aliasName : Option String
  kind : Kind
  default : Option Value
  duplicateHandling : Option DuplicateHandling
  transform : Option (Value → Value)

/-- The parse result: the `_` array of positionals plus the remaining own
properties as an insertion-ordered association list.  (In JavaScript the
`_` array lives in the same object; keeping it separate is faithful as
long as no configured option is named `_` or aliased `_`, which the
quantified theorems below assume explicitly.) -/
structure ParseResult where
  pos : List String
  opts : List (String × Value)

/-- Tail of the numeric regex after the first digit: `\d*(\.\d+)?$`. -/
def digitsTail : List Char → Bool
  | [] => true
  | '.' :: rest => decide (rest ≠ []) && rest.all (fun c => c.isDigit)
  | c :: rest => c.isDigit && digitsTail rest

/-- `\d+(\.\d+)?$` -/
def numericBody : List Char → Bool
  | [] => false
  | c :: rest => c.isDigit && digitsTail rest

/-- Source function `isNumericRegex`: tests `/^-?\d+(\.\d+)?$/`. -/
def isNumericRegex (s : String) : Bool :=
  match s.toList with
  | '-' :: rest => numericBody rest
  | cs => numericBody cs

/-- Source function `stripHyphens`: count of leading `-` characters and the remainder.
When the string is all hyphens, JavaScript `findIndex` returns `-1` and
`arg.slice(-1)` yields the last character; that case is modelled exactly
(it is unreachable through `parse` because `--` terminates first and `-`
is positional, but `hyphenCount = -1` matches neither 1 nor 2 anyway). -/
def stripHyphens (arg : String) : Int × String :=
  match arg.toList.findIdx? (fun a => a != '-') with
  | some k => (Int.ofNat k, String.mk (arg.toList.drop k))
  | none => (-1, String.mk (arg.toList.drop (arg.toList.length - 1)))

/-- Source function `isOptionArg`: length ≥ 2, starts with `-`, and not numeric. -/
def isOptionArg (arg : String) : Bool :=
  if arg.toList.length < 2 then false
  else
    (match arg.toList with
     | '-' :: _ => true
     | _ => false) && !isNumericRegex arg

/-- Source function `parseEqualsFormat`: split at the first `=`; `none` models the
`undefined` inline value. -/
def parseEqualsFormat (arg : String) : String × Option String :=
  match arg.toList.findIdx? (fun c => c == '=') with
  | none => (arg, none)
  | some k => (String.mk (arg.toList.take k), some (String.mk (arg.toList.drop (k + 1))))

/-- Source function `expandShortCluster`: the individual characters of a short cluster. -/
def expandShortCluster (option : String) : List Char :=
  option.toList

/-- Source function `isNegativeOption`: starts with the literal `no-`. -/
def isNegativeOption (option : String) : Bool :=
  match option.toList with
  | 'n' :: 'o' :: '-' :: _ => true
  | _ => false

/-- Source function `extractNegativeOption`: drop the three characters of `no-`. -/
def extractNegativeOption (option : String) : String :=
  String.mk (option.toList.drop 3)

/-- Source function `isNextArgValue`: a following token exists and is not an option
candidate. -/
def isNextArgValue (args : List String) (currentIndex : Nat) : Bool :=
  if currentIndex + 1 ≥ args.length then false
  else !isOptionArg (args.getD (currentIndex + 1) "")

/-- Lookup in the `configMap` built by `buildConfigMaps`: `Map.set` lets
the later declaration win, hence the search over the reversed list. -/
def configLookup (cfg : List OptionConfig) (name : String) : Option OptionConfig :=
  cfg.reverse.find? (fun e => e.name == name)

/-- Lookup in the `aliasMap` (alias → canonical name); later declarations
win as for `configLookup`. -/
def getAliasVerboseName (cfg : List OptionConfig) (a : String) : Option String :=
  (cfg.reverse.find? (fun e => e.aliasName == some a)).map (fun e => e.name)

/-- Source method `getOptionConfig`: resolve an alias first (`aliasMap.get(option) ||
option`, so an empty-string canonical name falls back like any other
falsy value), then look the key up in the config map. -/
def getOptionConfig (cfg : List OptionConfig) (option : String) : Option OptionConfig :=
  let key :=
    match getAliasVerboseName cfg option with
    | some n => if n == "" then option else n
    | none => option
  configLookup cfg key

/-- In-place update of the result object's property list; appends when
the key is absent (JavaScript property insertion order). -/
def updateAssoc : List (String × Value) → String → Value → List (String × Value)
  | [], k, v => [(k, v)]
  | (k1, v1) :: rest, k, v =>
    if k1 == k then (k, v) :: rest else (k1, v1) :: updateAssoc rest k v

/-- Set a property on the result. -/
def setOpt (r : ParseResult) (k : String) (v : Value) : ParseResult :=
  ⟨r.pos, updateAssoc r.opts k v⟩

/-- Property read (also the `Object.hasOwn` test) for canonical-name keys. -/
def lookupOpt (r : ParseResult) (k : String) : Option Value :=
  r.opts.lookup k

/-- Source method `storeOptionValue`, the duplicate accumulator.  The third parameter
defaults to `last-wins` when the config field is `undefined`.  Note the
source guards the `last-wins` overwrite with JavaScript truthiness of the
current value, and the accumulate code runs for any policy when that
guard fails. -/
def storeOptionValue (r : ParseResult) (option : String) (value : Value)
    (duplicateHandling : Option DuplicateHandling) : ParseResult :=
  match lookupOpt r option with
  | none => setOpt r option value
  | some .null => setOpt r option value
  | some cur =>
    if duplicateHandling.getD .lastWins == .firstWins then r
    else if duplicateHandling.getD .lastWins == .lastWins && cur.truthy then
      setOpt r option value
    else
      match cur with
      | .list vs => setOpt r option (.list (vs ++ [value]))
      | _ => setOpt r option (.list [cur, value])

/-- Source method `parseLongOption`.  Returns whether the next argv element was
consumed (the source returns the updated index, which moves by at most
one) together with the updated result. -/
def parseLongOption (cfg : List OptionConfig) (content : String)
    (args : List String) (i : Nat) (r : ParseResult) : Bool × ParseResult :=
  let p := parseEqualsFormat content
  let rawOption := p.1
  let inlineValue := p.2
  if isNegativeOption rawOption then
    match getOptionConfig cfg (extractNegativeOption rawOption) with
    | some config =>
      if config.kind == .flag then
        (false, storeOptionValue r config.name (.bool false) config.duplicateHandling)
      else (false, r)
    | none => (false, r)
  else
    match getOptionConfig cfg rawOption with
    | none => (false, r)
    | some config =>
      if config.kind == .flag then
        (false, storeOptionValue r config.name
          (.bool (inlineValue != some "false")) config.duplicateHandling)
      else
        match inlineValue with
        | some v => (false, storeOptionValue r config.name (.str v) config.duplicateHandling)
        | none =>
          if isNextArgValue args i then
            (true, storeOptionValue r config.name (.str (args.getD (i + 1) ""))
              config.duplicateHandling)
          else (false, storeOptionValue r config.name .null config.duplicateHandling)

/-- The character loop of `parseShortOption`: left-to-right over the
cluster, `rest = []` marking the last position; a value-kind option in a
non-terminal position takes the remainder of the cluster and breaks. -/
def parseShortChars (cfg : List OptionConfig) (inlineValue : Option String)
    (args : List String) (i : Nat) : List Char → ParseResult → Bool × ParseResult
  | [], r => (false, r)
  | c :: rest, r =>
    match getOptionConfig cfg (String.mk [c]) with
    | none => parseShortChars cfg inlineValue args i rest r
    | some config =>
      if config.kind == .flag then
        parseShortChars cfg inlineValue args i rest
          (storeOptionValue r config.name (.bool (inlineValue != some "false"))
            config.duplicateHandling)
      else if rest.isEmpty then
        match inlineValue with
        | some v => (false, storeOptionValue r config.name (.str v) config.duplicateHandling)
        | none =>
          if isNextArgValue args i then
            (true, storeOptionValue r config.name (.str (args.getD (i + 1) ""))
              config.duplicateHandling)
          else (false, storeOptionValue r config.name .null config.duplicateHandling)
      else
        (false, storeOptionValue r config.name (.str (String.mk rest)) config.duplicateHandling)

/-- Source method `parseShortOption`: split the `=`-inline value, then process the
cluster characters. -/
def parseShortOption (cfg : List OptionConfig) (content : String)
    (args : List String) (i : Nat) (r : ParseResult) : Bool × ParseResult :=
  let p := parseEqualsFormat content
  parseShortChars cfg p.2 args i (expandShortCluster p.1) r

/-- The scan loop of `parse`: classify each token, dispatch to the long
or short resolver (advancing by two when the resolver consumed the next
token), stop at `--` pushing the remainder as positionals.  The loop is
given an explicit iteration budget (the first `Nat`): since the index
strictly increases every iteration, `args.length` iterations always
suffice, and structural recursion on the budget keeps every run of the
parser kernel-reducible. -/
def scanArgs (cfg : List OptionConfig) (args : List String) :
    Nat → Nat → ParseResult → ParseResult
  | 0, _, r => r
  | fuel + 1, i, r =>
    if i < args.length then
      let arg := args.getD i ""
      if arg == "--" then ⟨r.pos ++ args.drop (i + 1), r.opts⟩
      else if isOptionArg arg then
        let s := stripHyphens arg
        if s.1 == 2 then
          match parseLongOption cfg s.2 args i r with
          | (true, r2) => scanArgs cfg args fuel (i + 2) r2
          | (false, r2) => scanArgs cfg args fuel (i + 1) r2
        else if s.1 == 1 then
          match parseShortOption cfg s.2 args i r with
          | (true, r2) => scanArgs cfg args fuel (i + 2) r2
          | (false, r2) => scanArgs cfg args fuel (i + 1) r2
        else scanArgs cfg args fuel (i + 1) r
      else scanArgs cfg args fuel (i + 1) ⟨r.pos ++ [arg], r.opts⟩
    else r

/-- One step of `applyDefaultValues`, iterating the configuration list.
`configMap.entries()` iterates each canonical name once (first-insertion
order, last-set value); iterating the raw list and consulting
`configLookup` reproduces that exactly, because once a name is set the
`hasOwn` guard skips the later duplicates.  The result object always owns
`_`, hence the explicit check. -/
def applyDefaultStep (cfg : List OptionConfig) (e : OptionConfig) (r : ParseResult) :
    ParseResult :=
  match configLookup cfg e.name with
  | some c =>
    match c.default with
    | some d =>
      if e.name == "_" || (lookupOpt r e.name).isSome then r
      else setOpt r e.name d
    | none => r
  | none => r

/-- Iteration of `applyDefaultValues` over the configuration list. -/
def applyDefaultsGo (cfg : List OptionConfig) : List OptionConfig → ParseResult → ParseResult
  | [], r => r
  | e :: rest, r => applyDefaultsGo cfg rest (applyDefaultStep cfg e r)

/-- Source method `applyDefaultValues`. -/
def applyDefaultValues (cfg : List OptionConfig) (r : ParseResult) : ParseResult :=
  applyDefaultsGo cfg cfg r

/-- The per-key transform application of `applyTransforms`. -/
def applyTransform (cfg : List OptionConfig) (key : String) (v : Value) : Value :=
  match getOptionConfig cfg key with
  | some c =>
    match c.transform with
    | some t => t v
    | none => v
  | none => v

/-- Source method `applyTransforms`: every own property is rewritten through its
option's transform, if any.  (JavaScript also visits the `_` entry; that
visit is a no-op unless an option resolves from the key `_`, which the
quantified theorems exclude by hypothesis.) -/
def applyTransforms (cfg : List OptionConfig) (r : ParseResult) : ParseResult :=
  ⟨r.pos, r.opts.map (fun kv => (kv.1, applyTransform cfg kv.1 kv.2))⟩

/-- The scan phase of `parse`, started at index 0 on the fresh result
`{ _: [] }`. -/
def scanResult (args : List String) (cfg : List OptionConfig) : ParseResult :=
  scanArgs cfg args args.length 0 ⟨[], []⟩

/-- Source method `parse`: scan, then defaults, then transforms. -/
def parse (args : List String) (cfg : List OptionConfig) : ParseResult :=
  applyTransforms cfg (applyDefaultValues cfg (scanResult args cfg))

/-- The exported entry point `ordinaryArgParser`. -/
def ordinaryArgParser (args : List String) (cfg : List OptionConfig) : ParseResult :=
  parse args cfg

/-- The exact condition under which `parseLongOption` consumes the next
argv element, read off its branch structure: not a `--no-` form, resolves
to a `value`-kind option, no inline value, and the next token is a value.
Returns the consuming option's configuration. -/
def valueConsumerLong (cfg : List OptionConfig) (content : String)
    (args : List String) (i : Nat) : Option OptionConfig :=
  let p := parseEqualsFormat content
  if isNegativeOption p.1 then none
  else
    match getOptionConfig cfg p.1 with
    | none => none
    | some config =>
      if config.kind == .flag then none
      else
        match p.2 with
        | some _ => none
        | none => if isNextArgValue args i then some config else none

/-- The exact condition under which the short-cluster loop consumes the
next argv element: the loop must reach the final cluster character (every
earlier character unresolved or a flag), which must resolve to a
`value`-kind option, with no inline value and a value-looking next token. -/
def valueConsumerShortChars (cfg : List OptionConfig) (inlineValue : Option String)
    (args : List String) (i : Nat) : List Char → Option OptionConfig
  | [] => none
  | c :: rest =>
    match getOptionConfig cfg (String.mk [c]) with
    | none => valueConsumerShortChars cfg inlineValue args i rest
    | some config =>
      if config.kind == .flag then valueConsumerShortChars cfg inlineValue args i rest
      else if rest.isEmpty then
        match inlineValue with
        | some _ => none
        | none => if isNextArgValue args i then some config else none
      else none

/-- Wrapper applying `valueConsumerShortChars` after the `=`-split, as `parseShortOption`
performs it. -/
def valueConsumerShort (cfg : List OptionConfig) (content : String)
    (args : List String) (i : Nat) : Option OptionConfig :=
  let p := parseEqualsFormat content
  valueConsumerShortChars cfg p.2 args i (expandShortCluster p.1)

/-- The option (always `value`-kind) that consumes the token at position
`j + 1` while the scan handles the token at position `j`, if any; mirrors
the dispatch in `scanArgs`. -/
def valueConsumer (cfg : List OptionConfig) (args : List String) (j : Nat) :
    Option OptionConfig :=
  let arg := args.getD j ""
  if arg == "--" then none
  else if isOptionArg arg then
    let s := stripHyphens arg
    if s.1 == 2 then valueConsumerLong cfg s.2 args j
    else if s.1 == 1 then valueConsumerShort cfg s.2 args j
    else none
  else none

/-- Well-formedness assumption for the quantified theorems below: no
option is named `_` and no alias is `_`.  (In JavaScript the positional
array is the `_` property of the very result object, so an option that
resolves from the key `_` would clobber or transform that array; the
embedding keeps the two apart and therefore states its quantified claims
under this hypothesis.) -/
def noUnderscoreOption (cfg : List OptionConfig) : Prop :=
  ∀ e ∈ cfg, e.name ≠ "_" ∧ e.aliasName ≠ some "_"

/-! ### Lemmas about the result object and the accumulator -/

theorem lookup_cons_eq (k : String) (v : Value) (rest : List (String × Value)) :
    List.lookup k ((k, v) :: rest) = some v := by
  simp [List.lookup]

theorem lookup_cons_ne (k k1 : String) (v : Value) (rest : List (String × Value))
    (h : k ≠ k1) : List.lookup k ((k1, v) :: rest) = List.lookup k rest := by
  simp [List.lookup, beq_eq_false_iff_ne.mpr h]

theorem lookup_updateAssoc_self (l : List (String × Value)) (k : String) (v : Value) :
    (updateAssoc l k v).lookup k = some v := by
  induction l with
  | nil => simp [updateAssoc]
  | cons kv rest ih =>
    obtain ⟨k1, v1⟩ := kv
    by_cases h : k1 = k
    · simp [updateAssoc, h]
    · rw [updateAssoc, if_neg (by simpa using h), lookup_cons_ne k k1 v1 _ (Ne.symm h)]
      exact ih

theorem lookup_updateAssoc_other (l : List (String × Value)) (k k2 : String) (v : Value)
    (hne : k2 ≠ k) : (updateAssoc l k v).lookup k2 = l.lookup k2 := by
  induction l with
  | nil => simp [updateAssoc, lookup_cons_ne k2 k v [] hne]
  | cons kv rest ih =>
    obtain ⟨k1, v1⟩ := kv
    by_cases h : k1 = k
    · subst h
      rw [updateAssoc, if_pos (by simp), lookup_cons_ne k2 k1 v _ hne,
        lookup_cons_ne k2 k1 v1 _ hne]
    · rw [updateAssoc, if_neg (by simpa using h)]
      by_cases h2 : k2 = k1
      · subst h2
        rw [lookup_cons_eq, lookup_cons_eq]
      · rw [lookup_cons_ne k2 k1 v1 _ h2, lookup_cons_ne k2 k1 v1 _ h2]
        exact ih

theorem lookupOpt_setOpt_self (r : ParseResult) (k : String) (v : Value) :
    lookupOpt (setOpt r k v) k = some v :=
  lookup_updateAssoc_self r.opts k v

theorem lookupOpt_setOpt_other (r : ParseResult) (k k2 : String) (v : Value)
    (hne : k2 ≠ k) : lookupOpt (setOpt r k v) k2 = lookupOpt r k2 :=
  lookup_updateAssoc_other r.opts k k2 v hne

theorem storeOptionValue_pos (r : ParseResult) (o : String) (v : Value)
    (dh : Option DuplicateHandling) : (storeOptionValue r o v dh).pos = r.pos := by
  unfold storeOptionValue
  split
  · rfl
  · rfl
  · split
    · rfl
    · split
      · rfl
      · split <;> rfl

theorem parseLongOption_pos (cfg : List OptionConfig) (content : String)
    (args : List String) (i : Nat) (r : ParseResult) :
    (parseLongOption cfg content args i r).2.pos = r.pos := by
  simp only [parseLongOption]
  repeat' split
  all_goals simp [storeOptionValue_pos]

theorem parseShortChars_pos (cfg : List OptionConfig) (inlineValue : Option String)
    (args : List String) (i : Nat) (cs : List Char) (r : ParseResult) :
    (parseShortChars cfg inlineValue args i cs r).2.pos = r.pos := by
  induction cs generalizing r with
  | nil => rfl
  | cons c rest ih =>
    simp only [parseShortChars]
    repeat' split
    all_goals simp [storeOptionValue_pos, ih]

theorem parseShortOption_pos (cfg : List OptionConfig) (content : String)
    (args : List String) (i : Nat) (r : ParseResult) :
    (parseShortOption cfg content args i r).2.pos = r.pos :=
  parseShortChars_pos ..

/-! ### Lemmas about the scan loop -/

theorem scanArgs_pos_mono (cfg : List OptionConfig) (args : List String)
    (fuel : Nat) : ∀ (i : Nat) (r : ParseResult) (x : String), x ∈ r.pos →
    x ∈ (scanArgs cfg args fuel i r).pos := by
  induction fuel with
  | zero => intro i r x hx; exact hx
  | succ fuel ih =>
    intro i r x hx
    rw [scanArgs]
    by_cases hi : i < args.length
    · rw [if_pos hi]
      by_cases ht : (args.getD i "" == "--") = true
      · rw [if_pos ht]
        exact List.mem_append_left _ hx
      · rw [if_neg ht]
        by_cases ho : isOptionArg (args.getD i "") = true
        · rw [if_pos ho]
          by_cases h2 : ((stripHyphens (args.getD i "")).1 == 2) = true
          · rw [if_pos h2]
            rcases hlong : parseLongOption cfg (stripHyphens (args.getD i "")).2 args i r with
              ⟨b, r2⟩
            have hpos : r2.pos = r.pos := by
              have := parseLongOption_pos cfg (stripHyphens (args.getD i "")).2 args i r
              rw [hlong] at this
              exact this
            cases b
            · exact ih (i + 1) r2 x (hpos ▸ hx)
            · exact ih (i + 2) r2 x (hpos ▸ hx)
          · rw [if_neg h2]
            by_cases h1 : ((stripHyphens (args.getD i "")).1 == 1) = true
            · rw [if_pos h1]
              rcases hshort : parseShortOption cfg (stripHyphens (args.getD i "")).2 args i r with
                ⟨b, r2⟩
              have hpos : r2.pos = r.pos := by
                have := parseShortOption_pos cfg (stripHyphens (args.getD i "")).2 args i r
                rw [hshort] at this
                exact this
              cases b
              · exact ih (i + 1) r2 x (hpos ▸ hx)
              · exact ih (i + 2) r2 x (hpos ▸ hx)
            · rw [if_neg h1]
              exact ih (i + 1) r x hx
        · rw [if_neg ho]
          exact ih (i + 1) ⟨r.pos ++ [args.getD i ""], r.opts⟩ x (List.mem_append_left _ hx)
    · rw [if_neg hi]
      exact hx

theorem scanArgs_pos_sub (cfg : List OptionConfig) (args : List String)
    (fuel : Nat) : ∀ (i : Nat) (r : ParseResult) (x : String),
    x ∈ (scanArgs cfg args fuel i r).pos → x ∈ r.pos ∨ x ∈ args := by
  induction fuel with
  | zero => intro i r x hx; exact Or.inl hx
  | succ fuel ih =>
    intro i r x hx
    rw [scanArgs] at hx
    by_cases hi : i < args.length
    · rw [if_pos hi] at hx
      by_cases ht : (args.getD i "" == "--") = true
      · rw [if_pos ht] at hx
        rcases List.mem_append.mp hx with h | h
        · exact Or.inl h
        · exact Or.inr (List.mem_of_mem_drop h)
      · rw [if_neg ht] at hx
        by_cases ho : isOptionArg (args.getD i "") = true
        · rw [if_pos ho] at hx
          by_cases h2 : ((stripHyphens (args.getD i "")).1 == 2) = true
          · rw [if_pos h2] at hx
            rcases hlong : parseLongOption cfg (stripHyphens (args.getD i "")).2 args i r with
              ⟨b, r2⟩
            rw [hlong] at hx
            have hpos : r2.pos = r.pos := by
              have := parseLongOption_pos cfg (stripHyphens (args.getD i "")).2 args i r
              rw [hlong] at this
              exact this
            cases b
            · rcases ih (i + 1) r2 x hx with h | h
              · exact Or.inl (hpos ▸ h)
              · exact Or.inr h
            · rcases ih (i + 2) r2 x hx with h | h
              · exact Or.inl (hpos ▸ h)
              · exact Or.inr h
          · rw [if_neg h2] at hx
            by_cases h1 : ((stripHyphens (args.getD i "")).1 == 1) = true
            · rw [if_pos h1] at hx
              rcases hshort : parseShortOption cfg (stripHyphens (args.getD i "")).2 args i r with
                ⟨b, r2⟩
              rw [hshort] at hx
              have hpos : r2.pos = r.pos := by
                have := parseShortOption_pos cfg (stripHyphens (args.getD i "")).2 args i r
                rw [hshort] at this
                exact this
              cases b
              · rcases ih (i + 1) r2 x hx with h | h
                · exact Or.inl (hpos ▸ h)
                · exact Or.inr h
              · rcases ih (i + 2) r2 x hx with h | h
                · exact Or.inl (hpos ▸ h)
                · exact Or.inr h
            · rw [if_neg h1] at hx
              exact ih (i + 1) r x hx
        · rw [if_neg ho] at hx
          rcases ih (i + 1) ⟨r.pos ++ [args.getD i ""], r.opts⟩ x hx with h | h
          · rcases List.mem_append.mp h with h3 | h3
            · exact Or.inl h3
            · have : x = args.getD i "" := List.mem_singleton.mp h3
              subst this
              refine Or.inr ?_
              rw [List.getD_eq_getElem?_getD, List.getElem?_eq_getElem hi]
              exact List.getElem_mem hi
          · exact Or.inr h
    · rw [if_neg hi] at hx
      exact Or.inl hx

/-! ### Lemmas about the default and transform passes -/

theorem applyDefaultStep_pos (cfg : List OptionConfig) (e : OptionConfig)
    (r : ParseResult) : (applyDefaultStep cfg e r).pos = r.pos := by
  unfold applyDefaultStep
  repeat' split
  all_goals rfl

theorem applyDefaultsGo_pos (cfg : List OptionConfig) :
    ∀ (l : List OptionConfig) (r : ParseResult),
    (applyDefaultsGo cfg l r).pos = r.pos := by
  intro l
  induction l with
  | nil => intro r; rfl
  | cons e rest ih =>
    intro r
    rw [applyDefaultsGo, ih, applyDefaultStep_pos]

theorem applyDefaultStep_preserves (cfg : List OptionConfig) (e : OptionConfig)
    (r : ParseResult) (name : String) (v : Value) (h : lookupOpt r name = some v) :
    lookupOpt (applyDefaultStep cfg e r) name = some v := by
  unfold applyDefaultStep
  split
  · split
    · split
      · exact h
      · rename_i hg
        have hne : name ≠ e.name := by
          intro he
          subst he
          simp [h] at hg
        exact (lookupOpt_setOpt_other r e.name name _ hne).trans h
    · exact h
  · exact h

theorem applyDefaultsGo_preserves (cfg : List OptionConfig) :
    ∀ (l : List OptionConfig) (r : ParseResult) (name : String) (v : Value),
    lookupOpt r name = some v →
    lookupOpt (applyDefaultsGo cfg l r) name = some v := by
  intro l
  induction l with
  | nil => intro r name v h; exact h
  | cons e rest ih =>
    intro r name v h
    rw [applyDefaultsGo]
    exact ih _ name v (applyDefaultStep_preserves cfg e r name v h)

theorem lookup_map_applyTransform (cfg : List OptionConfig) (key : String) :
    ∀ (l : List (String × Value)),
    (l.map (fun kv => (kv.1, applyTransform cfg kv.1 kv.2))).lookup key
      = (l.lookup key).map (applyTransform cfg key) := by
  intro l
  induction l with
  | nil => rfl
  | cons kv rest ih =>
    obtain ⟨k1, v1⟩ := kv
    by_cases h : key = k1
    · subst h
      rw [List.map_cons, lookup_cons_eq, lookup_cons_eq]
      rfl
    · rw [List.map_cons, lookup_cons_ne key k1 _ _ h, lookup_cons_ne key k1 v1 _ h, ih]

theorem lookupOpt_applyTransforms (cfg : List OptionConfig) (r : ParseResult)
    (key : String) : lookupOpt (applyTransforms cfg r) key
      = (lookupOpt r key).map (applyTransform cfg key) :=
  lookup_map_applyTransform cfg key r.opts

/-! ### Claim theorems: concrete evaluations, accumulator, cluster -/

/-- Claim C1 (code divergence witness): the code does not raise any
`UNKNOWN_ARGUMENT` failure — `parseLongOption` returns silently when the
name resolves to no configuration, so `parse(['--unknown'], [])` returns
the result `{_: []}` with the unknown token dropped. -/
theorem C1_unknown_argument_not_raised : parse ["--unknown"] [] = ⟨[], []⟩ := rfl

/-- Claim C2 (code divergence witness): the code does not raise any
`MISSING_VALUE` failure — a `value`-kind option with no inline value and
no eligible next token stores `null`, so `parse(['--port'],
[{name:'port',kind:'value',default:'3000'}])` returns `{_: [], port:
null}` instead of throwing. -/
theorem C2_missing_value_not_raised :
    parse ["--port"] [⟨"port", none, .value, some (.str "3000"), none, none⟩]
      = ⟨[], [("port", Value.null)]⟩ := rfl

/-- Claim C5: the README scenario.  Clustering stores `all: true`, the
trailing value-kind `message` consumes the next non-option token,
equals-syntax stores `John` verbatim, GNU negation stores `false` for
`verify`, and `file.js` is positional; nothing else is in the result. -/
theorem C5_readme_scenario :
    parse ["-am", "Initial commit", "--author=John", "--no-verify", "file.js"]
      [⟨"all", some "a", .flag, none, none, none⟩,
       ⟨"message", some "m", .value, some (.str ""), none, none⟩,
       ⟨"verify", none, .flag, some (.bool true), none, none⟩,
       ⟨"author", none, .value, some (.str ""), none, none⟩]
      = ⟨["file.js"],
         [("all", Value.bool true), ("message", Value.str "Initial commit"),
          ("author", Value.str "John"), ("verify", Value.bool false)]⟩ := rfl

theorem scanArgs_all_positional (cfg : List OptionConfig) (args : List String)
    (hterm : ∀ t ∈ args, t ≠ "--") (hopt : ∀ t ∈ args, isOptionArg t = false) :
    ∀ (fuel i : Nat) (r : ParseResult), args.length ≤ fuel + i →
      scanArgs cfg args fuel i r = ⟨r.pos ++ args.drop i, r.opts⟩ := by
  intro fuel
  induction fuel with
  | zero =>
    intro i r hle
    rw [scanArgs, List.drop_eq_nil_of_le (by omega), List.append_nil]
  | succ fuel ih =>
    intro i r hle
    rw [scanArgs]
    by_cases hi : i < args.length
    · have hget : args.getD i "" = args[i] := by
        rw [List.getD_eq_getElem?_getD, List.getElem?_eq_getElem hi]
        rfl
      have hmem : args.getD i "" ∈ args := by
        rw [hget]
        exact List.getElem_mem hi
      have hne : ¬ ((args.getD i "" == "--") = true) := by
        simp only [beq_iff_eq]
        exact hterm _ hmem
      have hop : ¬ (isOptionArg (args.getD i "") = true) := by
        rw [hopt _ hmem]
        exact Bool.false_ne_true
      rw [if_pos hi, if_neg hne, if_neg hop, ih (i + 1) _ (by omega),
        List.drop_eq_getElem_cons hi, ← hget]
      simp
    · rw [if_neg hi, List.drop_eq_nil_of_le (by omega), List.append_nil]

/-- Claim C3 (counterexample): with the empty configuration, the input
`['--unknown']` contains no `--` token, yet the result's positional
sequence is empty rather than equal to the input — an unresolved
option-candidate is dropped, not kept as positional. -/
theorem C3_counterexample :
    ¬ ((parse ["--unknown"] []).pos = ["--unknown"]
       ∧ (parse ["--unknown"] []).opts = []) := by
  intro h
  have h1 : ([] : List String) = ["--unknown"] := h.1
  exact absurd h1 (by decide)

/-- Claim C3 (amended): for every token sequence containing no `--` token
and no token classified as an option-candidate, parsing with an empty
configuration yields a positional sequence equal to the input tokens and
an empty option mapping. -/
theorem C3_empty_config_passthrough (args : List String)
    (hterm : ∀ t ∈ args, t ≠ "--") (hopt : ∀ t ∈ args, isOptionArg t = false) :
    parse args [] = ⟨args, []⟩ := by
  unfold parse scanResult
  rw [scanArgs_all_positional [] args hterm hopt args.length 0 ⟨[], []⟩ (by omega)]
  rfl

theorem C3_empty_config_passthrough_witness :
    parse ["file.txt", "-", "9", "-2.5"] [] = ⟨["file.txt", "-", "9", "-2.5"], []⟩ :=
  C3_empty_config_passthrough ["file.txt", "-", "9", "-2.5"] (by decide) (by decide)

/-- Claim C4 (counterexample): under the default `last-wins` handling, a
previously stored falsy value (here the empty string from `--output=`) is
not overwritten; the accumulate code runs instead, so the final value is
the array `['', 'b.txt']`, not `'b.txt'`. -/
theorem C4_counterexample :
    lookupOpt (parse ["--output=", "--output=b.txt"]
        [⟨"output", none, .value, some (.str ""), none, none⟩]) "output"
      = some (Value.list [Value.str "", Value.str "b.txt"])
    ∧ lookupOpt (parse ["--output=", "--output=b.txt"]
        [⟨"output", none, .value, some (.str ""), none, none⟩]) "output"
      ≠ some (Value.str "b.txt") := by
  refine ⟨rfl, ?_⟩
  intro h
  have h2 : some (Value.list [Value.str "", Value.str "b.txt"])
      = some (Value.str "b.txt") := h
  injection h2 with h3
  exact Value.noConfusion h3

/-- Claim C4 (amended): when a new occurrence of a `last-wins` option is
resolved and a value is already stored under its canonical name, the
stored value is overwritten with the new value provided the stored value
is truthy (JavaScript truthiness); a stored falsy non-null value is
instead joined with the new value into a two-element array (the
accumulate code path); the scenario `parse(['--output','a.txt',
'--output','b.txt'], ...)` still yields `output: 'b.txt'`. -/
theorem C4_last_wins_overwrites_truthy :
    (∀ (r : ParseResult) (name : String) (v cur : Value)
      (dh : Option DuplicateHandling), dh.getD .lastWins = .lastWins →
      lookupOpt r name = some cur → cur ≠ Value.null → cur.truthy = true →
      storeOptionValue r name v dh = setOpt r name v)
    ∧ (∀ (r : ParseResult) (name : String) (v cur : Value)
      (dh : Option DuplicateHandling), dh.getD .lastWins = .lastWins →
      lookupOpt r name = some cur → cur ≠ Value.null → cur.truthy = false →
      (∀ vs, cur ≠ Value.list vs) →
      storeOptionValue r name v dh = setOpt r name (Value.list [cur, v]))
    ∧ lookupOpt (parse ["--output", "a.txt", "--output", "b.txt"]
        [⟨"output", none, .value, some (.str ""), none, none⟩]) "output"
      = some (Value.str "b.txt") := by
  refine ⟨?_, ?_, rfl⟩
  · intro r name v cur dh hdh hl hnull htr
    unfold storeOptionValue
    rw [hl]
    cases cur with
    | null => exact absurd rfl hnull
    | str s => simp [hdh, htr]
    | bool b => simp [hdh, htr]
    | list vs => simp [hdh, htr]
  · intro r name v cur dh hdh hl hnull htr hnl
    unfold storeOptionValue
    rw [hl]
    cases cur with
    | null => exact absurd rfl hnull
    | str s => simp [hdh, htr]
    | bool b => simp [hdh, htr]
    | list vs => exact absurd rfl (hnl vs)

theorem C4_last_wins_overwrites_truthy_witness :
    storeOptionValue ⟨[], [("output", Value.str "a.txt")]⟩ "output" (Value.str "b.txt") none
      = setOpt ⟨[], [("output", Value.str "a.txt")]⟩ "output" (Value.str "b.txt") :=
  C4_last_wins_overwrites_truthy.1 ⟨[], [("output", Value.str "a.txt")]⟩ "output"
    (Value.str "b.txt") (Value.str "a.txt") none rfl rfl
    (by intro h; exact Value.noConfusion h) rfl

/-- Claim C8: in a short cluster (after the `=`-split), a character in a
non-terminal position that resolves to a `value`-kind option takes the
concatenation of all subsequent cluster characters as its stored value
and cluster processing ends immediately; concretely, `-oattached.txt`
with `o` aliasing a value-kind option stores the string `attached.txt`. -/
theorem C8_cluster_value_takes_remainder :
    (∀ (cfg : List OptionConfig) (inlineValue : Option String) (args : List String)
      (i : Nat) (c : Char) (rest : List Char) (r : ParseResult) (config : OptionConfig),
      rest ≠ [] →
      getOptionConfig cfg (String.mk [c]) = some config →
      config.kind = .value →
      parseShortChars cfg inlineValue args i (c :: rest) r
        = (false, storeOptionValue r config.name (Value.str (String.mk rest))
            config.duplicateHandling))
    ∧ lookupOpt (parse ["-oattached.txt"]
        [⟨"output", some "o", .value, some (.str "default.txt"), none, none⟩]) "output"
      = some (Value.str "attached.txt") := by
  refine ⟨?_, rfl⟩
  intro cfg inlineValue args i c rest r config hrest hres hkind
  cases rest with
  | nil => exact absurd rfl hrest
  | cons c2 rest2 =>
    rw [parseShortChars, hres]
    simp [hkind]

theorem C8_cluster_value_takes_remainder_witness :
    parseShortChars [⟨"output", some "o", .value, some (.str "default.txt"), none, none⟩]
      none ["-oattached.txt"] 0 ("oattached.txt".toList) ⟨[], []⟩
      = (false, storeOptionValue ⟨[], []⟩ "output" (Value.str "attached.txt") none) :=
  C8_cluster_value_takes_remainder.1
    [⟨"output", some "o", .value, some (.str "default.txt"), none, none⟩]
    none ["-oattached.txt"] 0 'o' ("attached.txt".toList) ⟨[], []⟩
    ⟨"output", some "o", .value, some (.str "default.txt"), none, none⟩
    (by decide) rfl rfl

/-- Claim C10 (implicit behavior of the code): a `value`-kind option hit
with no inline value and no eligible following token stores `null` under
its canonical name, `parse` does not fail, and the default pass never
replaces an existing key (it only fills canonical names entirely absent
from the result), so `parse(['--port'], [{name:'port', kind:'value',
default:'3000'}])` returns `{_: [], port: null}`. -/
theorem C10_null_survives_default_pass :
    parse ["--port"] [⟨"port", none, .value, some (.str "3000"), none, none⟩]
      = ⟨[], [("port", Value.null)]⟩
    ∧ (∀ (cfg : List OptionConfig) (r : ParseResult) (name : String) (v : Value),
        lookupOpt r name = some v →
        lookupOpt (applyDefaultValues cfg r) name = some v) := by
  refine ⟨rfl, ?_⟩
  intro cfg r name v h
  exact applyDefaultsGo_preserves cfg cfg r name v h

theorem C10_null_survives_default_pass_witness :
    lookupOpt (applyDefaultValues
        [⟨"port", none, .value, some (.str "3000"), none, none⟩]
        ⟨[], [("port", Value.null)]⟩) "port" = some Value.null :=
  C10_null_survives_default_pass.2
    [⟨"port", none, .value, some (.str "3000"), none, none⟩]
    ⟨[], [("port", Value.null)]⟩ "port" Value.null rfl

theorem applyDefaultsGo_sets (cfg : List OptionConfig) (c : OptionConfig) (d : Value)
    (hc : configLookup cfg c.name = some c) (hd : c.default = some d)
    (hUname : c.name ≠ "_") :
    ∀ (l : List OptionConfig) (r : ParseResult),
    lookupOpt r c.name = none → (∃ e ∈ l, e.name = c.name) →
    lookupOpt (applyDefaultsGo cfg l r) c.name = some d := by
  intro l
  induction l with
  | nil =>
    rintro r hnone ⟨e, he, _⟩
    cases he
  | cons e rest ih =>
    rintro r hnone ⟨e2, he2, hname⟩
    rw [applyDefaultsGo]
    by_cases heq : e.name = c.name
    · have hstep : lookupOpt (applyDefaultStep cfg e r) c.name = some d := by
        unfold applyDefaultStep
        simp only [heq, hc, hd]
        rw [if_neg (by simp [hnone, hUname])]
        exact lookupOpt_setOpt_self r c.name d
      exact applyDefaultsGo_preserves cfg rest _ c.name d hstep
    · have hstep : lookupOpt (applyDefaultStep cfg e r) c.name = none := by
        unfold applyDefaultStep
        split
        · split
          · split
            · exact hnone
            · exact (lookupOpt_setOpt_other r e.name c.name _
                (fun h => heq h.symm)).trans hnone
          · exact hnone
        · exact hnone
      apply ih _ hstep
      rcases List.mem_cons.mp he2 with h | h
      · subst h
        exact absurd hname heq
      · exact ⟨e2, h, hname⟩

/-- Claim C9: every key present in the result after the default pass is
rewritten through its option's transform exactly once; consequently an
option with a configured default and transform that is never stored
during the scan ends with value `transform(default)`, not the raw
default. -/
theorem C9_transform_once_after_defaults :
    (∀ (cfg : List OptionConfig) (r : ParseResult) (key : String) (v : Value),
      lookupOpt (applyDefaultValues cfg r) key = some v →
      lookupOpt (applyTransforms cfg (applyDefaultValues cfg r)) key
        = some (applyTransform cfg key v))
    ∧ (∀ (args : List String) (cfg : List OptionConfig) (c : OptionConfig)
        (d : Value) (t : Value → Value),
        noUnderscoreOption cfg →
        configLookup cfg c.name = some c →
        getOptionConfig cfg c.name = some c →
        c.default = some d →
        c.transform = some t →
        lookupOpt (scanResult args cfg) c.name = none →
        lookupOpt (parse args cfg) c.name = some (t d)) := by
  refine ⟨?_, ?_⟩
  · intro cfg r key v h
    rw [lookupOpt_applyTransforms, h]
    rfl
  · intro args cfg c d t hU hc hg hd ht hnone
    have hcmem : c ∈ cfg := List.mem_reverse.mp (List.mem_of_find?_eq_some hc)
    have hUname : c.name ≠ "_" := (hU c hcmem).1
    have hdef : lookupOpt (applyDefaultValues cfg (scanResult args cfg)) c.name
        = some d := by
      apply applyDefaultsGo_sets cfg c d hc hd hUname cfg _ hnone
      exact ⟨c, hcmem, rfl⟩
    unfold parse
    rw [lookupOpt_applyTransforms, hdef]
    simp [applyTransform, hg, ht]

theorem C9_transform_once_after_defaults_witness :
    lookupOpt (parse ["x"]
        [⟨"count", none, .value, some (.str "0"), none,
          some (fun v => Value.list [v])⟩]) "count"
      = some (Value.list [Value.str "0"]) :=
  C9_transform_once_after_defaults.2 ["x"]
    [⟨"count", none, .value, some (.str "0"), none, some (fun v => Value.list [v])⟩]
    ⟨"count", none, .value, some (.str "0"), none, some (fun v => Value.list [v])⟩
    (Value.str "0") (fun v => Value.list [v])
    (by
      intro e he
      rw [List.mem_singleton] at he
      subst he
      exact ⟨by decide, by decide⟩) rfl rfl rfl rfl rfl

/-! ### Lemmas for the numeric invariant -/

theorem isOptionArg_of_numeric (s : String) (h : isNumericRegex s = true) :
    isOptionArg s = false := by
  unfold isOptionArg
  split
  · rfl
  · rw [h]
    simp

theorem parseLongOption_fst (cfg : List OptionConfig) (content : String)
    (args : List String) (i : Nat) (r : ParseResult) :
    (parseLongOption cfg content args i r).1
      = (valueConsumerLong cfg content args i).isSome := by
  simp only [parseLongOption, valueConsumerLong]
  by_cases hneg : isNegativeOption (parseEqualsFormat content).1 = true
  · simp only [if_pos hneg]
    rcases getOptionConfig cfg (extractNegativeOption (parseEqualsFormat content).1)
      with _ | config
    · rfl
    · dsimp only
      split <;> rfl
  · simp only [if_neg hneg]
    rcases getOptionConfig cfg (parseEqualsFormat content).1 with _ | config
    · rfl
    · by_cases hk : (config.kind == Kind.flag) = true
      · simp only [if_pos hk]
        rfl
      · simp only [if_neg hk]
        rcases (parseEqualsFormat content).2 with _ | v
        · by_cases hn : isNextArgValue args i = true
          · simp only [if_pos hn]
            rfl
          · simp only [if_neg hn]
            rfl
        · rfl

theorem parseShortChars_fst (cfg : List OptionConfig) (inlineValue : Option String)
    (args : List String) (i : Nat) :
    ∀ (cs : List Char) (r : ParseResult),
    (parseShortChars cfg inlineValue args i cs r).1
      = (valueConsumerShortChars cfg inlineValue args i cs).isSome := by
  intro cs
  induction cs with
  | nil => intro r; rfl
  | cons c rest ih =>
    intro r
    rw [parseShortChars, valueConsumerShortChars]
    rcases getOptionConfig cfg (String.mk [c]) with _ | config
    · exact ih r
    · by_cases hk : (config.kind == Kind.flag) = true
      · simp only [if_pos hk]
        exact ih _
      · simp only [if_neg hk]
        by_cases he : rest.isEmpty = true
        · simp only [if_pos he]
          rcases inlineValue with _ | v
          · by_cases hn : isNextArgValue args i = true
            · simp only [if_pos hn]
              rfl
            · simp only [if_neg hn]
              rfl
          · rfl
        · simp only [if_neg he]
          rfl

theorem parseShortOption_fst (cfg : List OptionConfig) (content : String)
    (args : List String) (i : Nat) (r : ParseResult) :
    (parseShortOption cfg content args i r).1
      = (valueConsumerShort cfg content args i).isSome := by
  unfold parseShortOption valueConsumerShort
  exact parseShortChars_fst cfg (parseEqualsFormat content).2 args i
    (expandShortCluster (parseEqualsFormat content).1) r

theorem valueConsumerLong_kind (cfg : List OptionConfig) (content : String)
    (args : List String) (i : Nat) (config : OptionConfig)
    (h : valueConsumerLong cfg content args i = some config) :
    config.kind = Kind.value := by
  simp only [valueConsumerLong] at h
  by_cases hneg : isNegativeOption (parseEqualsFormat content).1 = true
  · rw [if_pos hneg] at h
    exact Option.noConfusion h
  · rw [if_neg hneg] at h
    rcases hres : getOptionConfig cfg (parseEqualsFormat content).1 with _ | config0
    · rw [hres] at h
      exact Option.noConfusion h
    · rw [hres] at h
      dsimp only at h
      by_cases hk : (config0.kind == Kind.flag) = true
      · rw [if_pos hk] at h
        exact Option.noConfusion h
      · rw [if_neg hk] at h
        rcases hp : (parseEqualsFormat content).2 with _ | v
        · rw [hp] at h
          dsimp only at h
          by_cases hn : isNextArgValue args i = true
          · rw [if_pos hn] at h
            injection h with h2
            cases hck : config0.kind with
            | flag => exact absurd (by rw [hck]; decide) hk
            | value => rw [← h2, hck]
          · rw [if_neg hn] at h
            exact Option.noConfusion h
        · rw [hp] at h
          exact Option.noConfusion h

theorem valueConsumerShortChars_kind (cfg : List OptionConfig)
    (inlineValue : Option String) (args : List String) (i : Nat) :
    ∀ (cs : List Char) (config : OptionConfig),
    valueConsumerShortChars cfg inlineValue args i cs = some config →
    config.kind = Kind.value := by
  intro cs
  induction cs with
  | nil =>
    intro config h
    exact absurd h (by simp [valueConsumerShortChars])
  | cons c rest ih =>
    intro config h
    rw [valueConsumerShortChars] at h
    rcases hres : getOptionConfig cfg (String.mk [c]) with _ | config0
    · rw [hres] at h
      dsimp only at h
      exact ih config h
    · rw [hres] at h
      dsimp only at h
      by_cases hk : (config0.kind == Kind.flag) = true
      · rw [if_pos hk] at h
        exact ih config h
      · rw [if_neg hk] at h
        by_cases he : rest.isEmpty = true
        · rw [if_pos he] at h
          rcases hp : inlineValue with _ | v
          · rw [hp] at h
            dsimp only at h
            by_cases hn : isNextArgValue args i = true
            · rw [if_pos hn] at h
              injection h with h2
              cases hck : config0.kind with
              | flag => exact absurd (by rw [hck]; decide) hk
              | value => rw [← h2, hck]
            · rw [if_neg hn] at h
              exact Option.noConfusion h
          · rw [hp] at h
            exact Option.noConfusion h
        · rw [if_neg he] at h
          exact Option.noConfusion h

theorem valueConsumer_kind (cfg : List OptionConfig) (args : List String) (j : Nat)
    (config : OptionConfig) (h : valueConsumer cfg args j = some config) :
    config.kind = Kind.value := by
  simp only [valueConsumer] at h
  by_cases hterm : (args.getD j "" == "--") = true
  · rw [if_pos hterm] at h
    exact Option.noConfusion h
  · rw [if_neg hterm] at h
    by_cases hopt : isOptionArg (args.getD j "") = true
    · rw [if_pos hopt] at h
      by_cases h2 : ((stripHyphens (args.getD j "")).1 == 2) = true
      · rw [if_pos h2] at h
        exact valueConsumerLong_kind cfg _ args j config h
      · rw [if_neg h2] at h
        by_cases h1 : ((stripHyphens (args.getD j "")).1 == 1) = true
        · rw [if_pos h1] at h
          unfold valueConsumerShort at h
          exact valueConsumerShortChars_kind cfg _ args j _ config h
        · rw [if_neg h1] at h
          exact Option.noConfusion h
    · rw [if_neg hopt] at h
      exact Option.noConfusion h

theorem parse_pos (args : List String) (cfg : List OptionConfig) :
    (parse args cfg).pos = (scanResult args cfg).pos := by
  unfold parse applyTransforms
  exact applyDefaultsGo_pos cfg cfg _

theorem scanArgs_numeric_positional (cfg : List OptionConfig) (args : List String)
    (k : Nat) (hk : k < args.length) (hnum : isNumericRegex (args.getD k "") = true) :
    ∀ (fuel i : Nat) (r : ParseResult), args.length ≤ fuel + i → i ≤ k →
    (args.getD k "") ∈ (scanArgs cfg args fuel i r).pos
    ∨ ∃ j, k = j + 1 ∧ (valueConsumer cfg args j).isSome = true := by
  intro fuel
  induction fuel with
  | zero =>
    intro i r hle hik
    omega
  | succ fuel ih =>
    intro i r hle hik
    rw [scanArgs, if_pos (show i < args.length by omega)]
    by_cases hterm : (args.getD i "" == "--") = true
    · rw [if_pos hterm]
      have hki : i < k := by
        rcases Nat.lt_or_ge i k with h | h
        · exact h
        · exfalso
          have heq : i = k := by omega
          subst heq
          rw [beq_iff_eq] at hterm
          rw [hterm] at hnum
          exact absurd hnum (by decide)
      left
      refine List.mem_append_right _ ?_
      have h1 : args.getD k "" = args[k] := by
        rw [List.getD_eq_getElem?_getD, List.getElem?_eq_getElem hk]
        rfl
      have h2 : k - (i + 1) < (args.drop (i + 1)).length := by
        rw [List.length_drop]
        omega
      have h3 : (args.drop (i + 1))[k - (i + 1)] = args[k] := by
        rw [List.getElem_drop]
        congr 1
        omega
      rw [h1, ← h3]
      exact List.getElem_mem h2
    · rw [if_neg hterm]
      by_cases hopt : isOptionArg (args.getD i "") = true
      · rw [if_pos hopt]
        have hki : i < k := by
          rcases Nat.lt_or_ge i k with h | h
          · exact h
          · exfalso
            have heq : i = k := by omega
            subst heq
            rw [isOptionArg_of_numeric _ hnum] at hopt
            exact absurd hopt (by decide)
        by_cases h2 : ((stripHyphens (args.getD i "")).1 == 2) = true
        · rw [if_pos h2]
          rcases hlong : parseLongOption cfg (stripHyphens (args.getD i "")).2 args i r
            with ⟨b, r2⟩
          cases b
          · exact ih (i + 1) r2 (by omega) (by omega)
          · by_cases hik3 : i + 1 = k
            · right
              refine ⟨i, by omega, ?_⟩
              have hfst := parseLongOption_fst cfg (stripHyphens (args.getD i "")).2 args i r
              rw [hlong] at hfst
              unfold valueConsumer
              rw [if_neg hterm, if_pos hopt, if_pos h2]
              exact hfst.symm
            · exact ih (i + 2) r2 (by omega) (by omega)
        · rw [if_neg h2]
          by_cases h1 : ((stripHyphens (args.getD i "")).1 == 1) = true
          · rw [if_pos h1]
            rcases hshort : parseShortOption cfg (stripHyphens (args.getD i "")).2 args i r
              with ⟨b, r2⟩
            cases b
            · exact ih (i + 1) r2 (by omega) (by omega)
            · by_cases hik3 : i + 1 = k
              · right
                refine ⟨i, by omega, ?_⟩
                have hfst := parseShortOption_fst cfg (stripHyphens (args.getD i "")).2 args i r
                rw [hshort] at hfst
                unfold valueConsumer
                rw [if_neg hterm, if_pos hopt, if_neg h2, if_pos h1]
                unfold valueConsumerShort at hfst
                exact hfst.symm
              · exact ih (i + 2) r2 (by omega) (by omega)
          · rw [if_neg h1]
            exact ih (i + 1) r (by omega) (by omega)
      · rw [if_neg hopt]
        by_cases heq : i = k
        · subst heq
          left
          exact scanArgs_pos_mono cfg args fuel (i + 1) _ _
            (List.mem_append_right _ (List.mem_singleton.mpr rfl))
        · exact ih (i + 1) _ (by omega) (by omega)

/-- Claim C6: a string matching the numeric pattern is never classified
as an option candidate, and during a parse such a token either ends up in
the positional sequence or is consumed as the value of a `value`-kind
option handled at the directly preceding position (`valueConsumer`
captures exactly the code's consumption condition). -/
theorem C6_numeric_never_option :
    (∀ s, isNumericRegex s = true → isOptionArg s = false)
    ∧ (∀ (args : List String) (cfg : List OptionConfig) (k : Nat),
        noUnderscoreOption cfg →
        k < args.length → isNumericRegex (args.getD k "") = true →
        (args.getD k "") ∈ (parse args cfg).pos
        ∨ ∃ j config, k = j + 1 ∧ valueConsumer cfg args j = some config
            ∧ config.kind = Kind.value) := by
  refine ⟨isOptionArg_of_numeric, ?_⟩
  intro args cfg k hU hk hnum
  rw [parse_pos]
  unfold scanResult
  rcases scanArgs_numeric_positional cfg args k hk hnum args.length 0 ⟨[], []⟩
    (by omega) (by omega) with h | ⟨j, hj, hsome⟩
  · exact Or.inl h
  · rcases Option.isSome_iff_exists.mp hsome with ⟨config, hconfig⟩
    exact Or.inr ⟨j, config, hj, hconfig, valueConsumer_kind cfg args j config hconfig⟩

theorem C6_numeric_never_option_witness :
    ("-5" ∈ (parse ["--count", "-5"] []).pos
     ∨ ∃ j config, (1 : Nat) = j + 1 ∧ valueConsumer [] ["--count", "-5"] j = some config
         ∧ config.kind = Kind.value) :=
  C6_numeric_never_option.2 ["--count", "-5"] [] 1
    (by intro e he; cases he) (by decide) (by decide)

/-! ### Lemmas for the terminator invariant -/

theorem getD_append_left (l1 l2 : List String) (j : Nat) (h : j < l1.length) :
    (l1 ++ l2).getD j "" = l1.getD j "" := by
  rw [List.getD_eq_getElem?_getD, List.getD_eq_getElem?_getD,
    List.getElem?_append_left h]

theorem isNextArgValue_lt (args : List String) (i : Nat)
    (h : isNextArgValue args i = true) : i + 1 < args.length := by
  unfold isNextArgValue at h
  by_cases hc : i + 1 ≥ args.length
  · rw [if_pos hc] at h
    exact absurd h (by decide)
  · omega

theorem isNextArgValue_append_terminator (args1 args2 : List String) (j : Nat)
    (hj : j < args1.length) :
    isNextArgValue (args1 ++ "--" :: args2) j = isNextArgValue args1 j := by
  unfold isNextArgValue
  rcases Nat.lt_or_ge (j + 1) args1.length with h | h
  · rw [if_neg (by rw [List.length_append]; omega), if_neg (by omega),
      getD_append_left args1 _ (j + 1) h]
  · have hj1 : j + 1 = args1.length := by omega
    rw [if_neg (show ¬(j + 1 ≥ (args1 ++ "--" :: args2).length) by
        simp [List.length_append]
        omega),
      if_pos (show j + 1 ≥ args1.length by omega)]
    have htok : (args1 ++ "--" :: args2).getD (j + 1) "" = "--" := by
      rw [hj1, List.getD_eq_getElem?_getD, List.getElem?_append_right (Nat.le_refl _)]
      simp
    rw [htok]
    decide

theorem valueConsumerLong_none_of_not_next (cfg : List OptionConfig) (content : String)
    (args : List String) (i : Nat) (hn : isNextArgValue args i = false) :
    valueConsumerLong cfg content args i = none := by
  simp only [valueConsumerLong, hn]
  by_cases hneg : isNegativeOption (parseEqualsFormat content).1 = true
  · rw [if_pos hneg]
  · rw [if_neg hneg]
    rcases getOptionConfig cfg (parseEqualsFormat content).1 with _ | config
    · rfl
    · dsimp only
      by_cases hk : (config.kind == Kind.flag) = true
      · rw [if_pos hk]
      · rw [if_neg hk]
        rcases (parseEqualsFormat content).2 with _ | v
        · dsimp only
          simp
        · rfl

theorem valueConsumerShortChars_none_of_not_next (cfg : List OptionConfig)
    (inlineValue : Option String) (args : List String) (i : Nat)
    (hn : isNextArgValue args i = false) :
    ∀ cs, valueConsumerShortChars cfg inlineValue args i cs = none := by
  intro cs
  induction cs with
  | nil => rfl
  | cons c rest ih =>
    rw [valueConsumerShortChars]
    rcases getOptionConfig cfg (String.mk [c]) with _ | config
    · exact ih
    · dsimp only
      by_cases hk : (config.kind == Kind.flag) = true
      · rw [if_pos hk]
        exact ih
      · rw [if_neg hk]
        by_cases he : rest.isEmpty = true
        · rw [if_pos he]
          rcases inlineValue with _ | v
          · dsimp only
            rw [hn]
            simp
          · rfl
        · rw [if_neg he]

theorem parseLongOption_consumed_next (cfg : List OptionConfig) (content : String)
    (args : List String) (i : Nat) (r : ParseResult)
    (h : (parseLongOption cfg content args i r).1 = true) :
    isNextArgValue args i = true := by
  cases hb : isNextArgValue args i
  · rw [parseLongOption_fst,
      valueConsumerLong_none_of_not_next cfg content args i hb] at h
    exact absurd h (by decide)
  · rfl

theorem parseShortOption_consumed_next (cfg : List OptionConfig) (content : String)
    (args : List String) (i : Nat) (r : ParseResult)
    (h : (parseShortOption cfg content args i r).1 = true) :
    isNextArgValue args i = true := by
  cases hb : isNextArgValue args i
  · rw [parseShortOption_fst] at h
    unfold valueConsumerShort at h
    rw [valueConsumerShortChars_none_of_not_next cfg _ args i hb] at h
    exact absurd h (by decide)
  · rfl

theorem parseLongOption_append (cfg : List OptionConfig) (content : String)
    (args1 args2 : List String) (i : Nat) (hi : i < args1.length) (r : ParseResult) :
    parseLongOption cfg content (args1 ++ "--" :: args2) i r
      = parseLongOption cfg content args1 i r := by
  simp only [parseLongOption]
  rw [isNextArgValue_append_terminator args1 args2 i hi]
  by_cases hn : isNextArgValue args1 i = true
  · have hlt : i + 1 < args1.length := isNextArgValue_lt args1 i hn
    rw [getD_append_left args1 ("--" :: args2) (i + 1) hlt]
  · have hf : isNextArgValue args1 i = false := by
      cases hb : isNextArgValue args1 i
      · rfl
      · exact absurd hb hn
    simp [hf]

theorem parseShortChars_append (cfg : List OptionConfig) (inlineValue : Option String)
    (args1 args2 : List String) (i : Nat) (hi : i < args1.length) :
    ∀ (cs : List Char) (r : ParseResult),
    parseShortChars cfg inlineValue (args1 ++ "--" :: args2) i cs r
      = parseShortChars cfg inlineValue args1 i cs r := by
  intro cs
  induction cs with
  | nil => intro r; rfl
  | cons c rest ih =>
    intro r
    rw [parseShortChars, parseShortChars]
    rcases getOptionConfig cfg (String.mk [c]) with _ | config
    · exact ih r
    · dsimp only
      by_cases hk : (config.kind == Kind.flag) = true
      · simp only [if_pos hk]
        exact ih _
      · simp only [if_neg hk]
        by_cases he : rest.isEmpty = true
        · simp only [if_pos he]
          rcases inlineValue with _ | v
          · dsimp only
            rw [isNextArgValue_append_terminator args1 args2 i hi]
            by_cases hn : isNextArgValue args1 i = true
            · have hlt : i + 1 < args1.length := isNextArgValue_lt args1 i hn
              simp only [if_pos hn]
              rw [getD_append_left args1 ("--" :: args2) (i + 1) hlt]
            · simp only [if_neg hn]
          · rfl
        · simp only [if_neg he]

theorem parseShortOption_append (cfg : List OptionConfig) (content : String)
    (args1 args2 : List String) (i : Nat) (hi : i < args1.length) (r : ParseResult) :
    parseShortOption cfg content (args1 ++ "--" :: args2) i r
      = parseShortOption cfg content args1 i r := by
  unfold parseShortOption
  exact parseShortChars_append cfg _ args1 args2 i hi _ r

theorem scanArgs_append (cfg : List OptionConfig) (args1 args2 : List String)
    (h1 : ∀ t ∈ args1, t ≠ "--") :
    ∀ (fuel fuel2 i : Nat) (r : ParseResult),
    args1.length + 1 ≤ fuel + i → args1.length ≤ fuel2 + i → i ≤ args1.length →
    scanArgs cfg (args1 ++ "--" :: args2) fuel i r
      = ⟨(scanArgs cfg args1 fuel2 i r).pos ++ args2,
         (scanArgs cfg args1 fuel2 i r).opts⟩ := by
  intro fuel
  induction fuel with
  | zero =>
    intro fuel2 i r hf hf2 hik
    omega
  | succ fuel ih =>
    intro fuel2 i r hf hf2 hik
    by_cases hi : i < args1.length
    · cases fuel2 with
      | zero => omega
      | succ fuel2 =>
        have hful : i < (args1 ++ "--" :: args2).length := by
          rw [List.length_append, List.length_cons]
          omega
        have htok : (args1 ++ "--" :: args2).getD i "" = args1.getD i "" :=
          getD_append_left args1 ("--" :: args2) i hi
        have hmem : args1.getD i "" ∈ args1 := by
          rw [List.getD_eq_getElem?_getD, List.getElem?_eq_getElem hi]
          exact List.getElem_mem hi
        have hterm : ¬((args1.getD i "" == "--") = true) := by
          simp only [beq_iff_eq]
          exact h1 _ hmem
        conv_lhs => rw [scanArgs]
        rw [if_pos hful, htok, if_neg hterm]
        by_cases hopt : isOptionArg (args1.getD i "") = true
        · rw [if_pos hopt]
          by_cases h2 : ((stripHyphens (args1.getD i "")).1 == 2) = true
          · rw [if_pos h2, parseLongOption_append cfg _ args1 args2 i hi r]
            rcases hres : parseLongOption cfg (stripHyphens (args1.getD i "")).2 args1 i r
              with ⟨b, r2⟩
            cases b with
            | false =>
              have hstep : scanArgs cfg args1 (fuel2 + 1) i r
                  = scanArgs cfg args1 fuel2 (i + 1) r2 := by
                rw [scanArgs, if_pos hi, if_neg hterm, if_pos hopt, if_pos h2, hres]
              rw [hstep]
              exact ih fuel2 (i + 1) r2 (by omega) (by omega) (by omega)
            | true =>
              have hnext : isNextArgValue args1 i = true := by
                apply parseLongOption_consumed_next cfg _ args1 i r
                rw [hres]
              have hlt : i + 1 < args1.length := isNextArgValue_lt args1 i hnext
              have hstep : scanArgs cfg args1 (fuel2 + 1) i r
                  = scanArgs cfg args1 fuel2 (i + 2) r2 := by
                rw [scanArgs, if_pos hi, if_neg hterm, if_pos hopt, if_pos h2, hres]
              rw [hstep]
              exact ih fuel2 (i + 2) r2 (by omega) (by omega) (by omega)
          · rw [if_neg h2]
            by_cases hone : ((stripHyphens (args1.getD i "")).1 == 1) = true
            · rw [if_pos hone, parseShortOption_append cfg _ args1 args2 i hi r]
              rcases hres : parseShortOption cfg (stripHyphens (args1.getD i "")).2 args1 i r
                with ⟨b, r2⟩
              cases b with
              | false =>
                have hstep : scanArgs cfg args1 (fuel2 + 1) i r
                    = scanArgs cfg args1 fuel2 (i + 1) r2 := by
                  rw [scanArgs, if_pos hi, if_neg hterm, if_pos hopt, if_neg h2,
                    if_pos hone, hres]
                rw [hstep]
                exact ih fuel2 (i + 1) r2 (by omega) (by omega) (by omega)
              | true =>
                have hnext : isNextArgValue args1 i = true := by
                  apply parseShortOption_consumed_next cfg _ args1 i r
                  rw [hres]
                have hlt : i + 1 < args1.length := isNextArgValue_lt args1 i hnext
                have hstep : scanArgs cfg args1 (fuel2 + 1) i r
                    = scanArgs cfg args1 fuel2 (i + 2) r2 := by
                  rw [scanArgs, if_pos hi, if_neg hterm, if_pos hopt, if_neg h2,
                    if_pos hone, hres]
                rw [hstep]
                exact ih fuel2 (i + 2) r2 (by omega) (by omega) (by omega)
            · rw [if_neg hone]
              have hstep : scanArgs cfg args1 (fuel2 + 1) i r
                  = scanArgs cfg args1 fuel2 (i + 1) r := by
                rw [scanArgs, if_pos hi, if_neg hterm, if_pos hopt, if_neg h2,
                  if_neg hone]
              rw [hstep]
              exact ih fuel2 (i + 1) r (by omega) (by omega) (by omega)
        · rw [if_neg hopt]
          have hstep : scanArgs cfg args1 (fuel2 + 1) i r
              = scanArgs cfg args1 fuel2 (i + 1) ⟨r.pos ++ [args1.getD i ""], r.opts⟩ := by
            rw [scanArgs, if_pos hi, if_neg hterm, if_neg hopt]
          rw [hstep]
          exact ih fuel2 (i + 1) _ (by omega) (by omega) (by omega)
    · have hieq : i = args1.length := by omega
      subst hieq
      have hful : args1.length < (args1 ++ "--" :: args2).length := by
        rw [List.length_append, List.length_cons]
        omega
      have htok : (args1 ++ "--" :: args2).getD args1.length "" = "--" := by
        rw [List.getD_eq_getElem?_getD, List.getElem?_append_right (Nat.le_refl _)]
        simp
      conv_lhs => rw [scanArgs]
      rw [if_pos hful, htok, if_pos (by decide : (("--" : String) == "--") = true)]
      have hdrop : (args1 ++ "--" :: args2).drop (args1.length + 1) = args2 := by
        simp
      rw [hdrop]
      have htr : scanArgs cfg args1 fuel2 args1.length r = r := by
        cases fuel2 with
        | zero => rfl
        | succ fuel2 => rw [scanArgs, if_neg (by omega)]
      rw [htr]

theorem parseResult_eta_pos (r : ParseResult) (p : List String) (hp : r.pos = p) :
    r = ⟨p, r.opts⟩ := by
  cases r
  cases hp
  rfl

theorem applyDefaultStep_opts_eq (cfg : List OptionConfig) (e : OptionConfig)
    (p q : List String) (o : List (String × Value)) :
    (applyDefaultStep cfg e ⟨p, o⟩).opts = (applyDefaultStep cfg e ⟨q, o⟩).opts := by
  unfold applyDefaultStep
  rcases configLookup cfg e.name with _ | c
  · rfl
  · dsimp only
    rcases c.default with _ | d
    · rfl
    · dsimp only [lookupOpt]
      by_cases hg : (e.name == "_" || (o.lookup e.name).isSome) = true
      · rw [if_pos hg, if_pos hg]
      · rw [if_neg hg, if_neg hg]
        rfl

theorem applyDefaultsGo_opts_eq (cfg : List OptionConfig) :
    ∀ (l : List OptionConfig) (p q : List String) (o : List (String × Value)),
    (applyDefaultsGo cfg l ⟨p, o⟩).opts = (applyDefaultsGo cfg l ⟨q, o⟩).opts := by
  intro l
  induction l with
  | nil => intro p q o; rfl
  | cons e rest ih =>
    intro p q o
    rw [applyDefaultsGo, applyDefaultsGo]
    rw [parseResult_eta_pos (applyDefaultStep cfg e ⟨p, o⟩) p (applyDefaultStep_pos ..)]
    rw [parseResult_eta_pos (applyDefaultStep cfg e ⟨q, o⟩) q (applyDefaultStep_pos ..)]
    rw [applyDefaultStep_opts_eq cfg e p q o]
    exact ih p q _

theorem parse_opts_split (args : List String) (cfg : List OptionConfig) :
    parse args cfg = ⟨(scanResult args cfg).pos,
      (applyTransforms cfg (applyDefaultValues cfg
        ⟨[], (scanResult args cfg).opts⟩)).opts⟩ := by
  unfold parse applyDefaultValues
  rcases hS : scanResult args cfg with ⟨sp, so⟩
  have h1 : applyDefaultsGo cfg cfg ⟨sp, so⟩
      = ⟨sp, (applyDefaultsGo cfg cfg ⟨[], so⟩).opts⟩ := by
    rw [parseResult_eta_pos (applyDefaultsGo cfg cfg ⟨sp, so⟩) sp (applyDefaultsGo_pos ..)]
    rw [applyDefaultsGo_opts_eq cfg cfg sp [] so]
  rw [h1]
  rfl

/-- Claim C7: after the first `--` token, every remaining token is
appended verbatim and in order to the positional output, the scan does no
option processing past that point (the option mapping is exactly that of
parsing the prefix alone), and the first `--` token itself lands in
neither output: the positional output is the prefix's positionals
(a subset of the prefix tokens, hence never `--`) followed by the suffix. -/
theorem C7_terminator (cfg : List OptionConfig) (args1 args2 : List String)
    (_hU : noUnderscoreOption cfg) (h1 : ∀ t ∈ args1, t ≠ "--") :
    (parse (args1 ++ "--" :: args2) cfg
      = ⟨(parse args1 cfg).pos ++ args2, (parse args1 cfg).opts⟩)
    ∧ ∀ t ∈ (parse args1 cfg).pos, t ∈ args1 := by
  constructor
  · have hS : scanResult (args1 ++ "--" :: args2) cfg
        = ⟨(scanResult args1 cfg).pos ++ args2, (scanResult args1 cfg).opts⟩ := by
      unfold scanResult
      apply scanArgs_append cfg args1 args2 h1 _ args1.length 0 ⟨[], []⟩
      all_goals simp [List.length_append, List.length_cons]
    rw [parse_opts_split (args1 ++ "--" :: args2) cfg, hS, parse_opts_split args1 cfg]
  · intro t ht
    rw [parse_pos] at ht
    unfold scanResult at ht
    rcases scanArgs_pos_sub cfg args1 args1.length 0 ⟨[], []⟩ t ht with h | h
    · cases h
    · exact h

theorem C7_terminator_witness :
    (parse (["a"] ++ "--" :: ["-x"]) [] = ⟨(parse ["a"] []).pos ++ ["-x"], (parse ["a"] []).opts⟩)
    ∧ ∀ t ∈ (parse ["a"] []).pos, t ∈ ["a"] :=
  C7_terminator [] ["a"] ["-x"] (by intro e he; cases he) (by decide)

end OrdArg
